import Mathlib

/-!
# Verification of the `egfscheduler` constraint-model builder

Shallow embedding of `src/egfscheduler/numberjack_scheduler.py`.

The Python code builds a Numberjack constraint model from a list of
work units and hands it to an external solver.  We embed:

* the domain model (`Resource`, `Task`, `WorkUnit`);
* a small expression / constraint AST covering exactly the Numberjack
  constructs the source uses (`+`, `-`, `*`, `Max`, `<=`, `<`, `>`,
  `Eq`, two-element `Or`, two-element `AllDiff`, `UnaryResource`);
* the model-building function `numberjack_model`, translated clause by
  clause from `numberjack_scheduler`;
* the variable domains created by `nj.Task` / `nj.Variable`
  (the Numberjack library itself is not part of this repository, so
  those domains and the meaning of `UnaryResource` are modelled from
  the specification);
* the post-solve materialization step that writes `scheduled` triples
  back onto tasks, including the "no solution" failure path.

Satisfying assignments are explicit (`Assignment`), and constraint
satisfaction is an executable `Bool`-valued function, so that all
theorems can be instantiated on concrete inputs by `decide`.
-/

namespace EGF

/-- A shared facility with a positive number of concurrent slots
(`Resource` objects of the domain model; `capacity` as in the source). -/
structure Resource where
  rid : Nat
  capacity : Nat
deriving DecidableEq, Repr

/-- An atomic activity: fixed `duration`, and the list of resources it
requires for its whole span (`task.duration`, `task.resources`). -/
structure Task where
  tid : Nat
  duration : Int
  resources : List Resource
deriving DecidableEq, Repr

/-- Decision-variable identifiers and the expression language.
The constructors mirror the Numberjack expressions the source builds:
`startVar t` is `nj_tasks[task]` (the start-time decision of a task),
`slotVar t r` is `nj_taskresources[task][resource]`,
`cmaxVar` is the `C_max` surrogate variable,
`zeroVar` is `ZERO = nj.Variable([0])` (a variable whose domain is the
single value 0), and `maxE` is the two-element `nj.Max([_, _])`. -/
inductive NJExpr where
  | const (n : Int)
  | startVar (t : Task)
  | slotVar (t : Task) (r : Resource)
  | cmaxVar
  | zeroVar
  | add (a b : NJExpr)
  | sub (a b : NJExpr)
  | mul (a b : NJExpr)
  | maxE (a b : NJExpr)

/-- Constraints: the Numberjack constraint forms used by the source.
`or2` is the two-element `nj.Or([_, _])`, `allDiff2` the two-element
`nj.AllDiff([_, _])`, `unaryResource` is `nj.UnaryResource` applied to
the interval variables of the listed tasks. -/
inductive NJConstraint where
  | le (a b : NJExpr)
  | lt (a b : NJExpr)
  | gt (a b : NJExpr)
  | eqC (a b : NJExpr)
  | or2 (c d : NJConstraint)
  | allDiff2 (a b : NJExpr)
  | unaryResource (ts : List Task)

/-- A work unit: ordered task chain, custom constraint builders
(functions from the ordered task start-variable list to a constraint),
parent work units, optional due time, priority, optional pinned start. -/
inductive WorkUnit : Type where
  | mk (name : Nat) (tasks : List Task)
      (constraints : List (List NJExpr → NJConstraint))
      (parents : List WorkUnit)
      (due_time : Option Int)
      (priority : Int)
      (scheduled_start : Option Int) : WorkUnit

def WorkUnit.tasks : WorkUnit → List Task
  | .mk _ ts _ _ _ _ _ => ts

def WorkUnit.constraints : WorkUnit → List (List NJExpr → NJConstraint)
  | .mk _ _ cs _ _ _ _ => cs

def WorkUnit.parents : WorkUnit → List WorkUnit
  | .mk _ _ _ ps _ _ _ => ps

def WorkUnit.due_time : WorkUnit → Option Int
  | .mk _ _ _ _ d _ _ => d

def WorkUnit.priority : WorkUnit → Int
  | .mk _ _ _ _ _ p _ => p

def WorkUnit.scheduled_start : WorkUnit → Option Int
  | .mk _ _ _ _ _ _ s => s

/-- Placeholder task, used only as the default of `headD` / `getLastD`;
the Python source would raise `IndexError` on an empty `tasks` list and
the specification requires `tasks` to be non-empty. -/
def dummyTask : Task := ⟨0, 0, []⟩

/-- The `work_unit.tasks[0]` of the source. -/
def WorkUnit.firstTask (wu : WorkUnit) : Task := wu.tasks.headD dummyTask

/-- The `work_unit.tasks[-1]` of the source. -/
def WorkUnit.lastTask (wu : WorkUnit) : Task := wu.tasks.getLastD dummyTask

/-- Source: `all_tasks = [task for work_unit in work_units for task in work_unit.tasks]`. -/
def all_tasks (work_units : List WorkUnit) : List Task :=
  work_units.flatMap WorkUnit.tasks

/-- Source: `all_resources = list(set([resource for task in all_tasks for resource in task.resources]))`
(the Python set iteration order is arbitrary; we keep first occurrences). -/
def all_resources (work_units : List WorkUnit) : List Resource :=
  ((all_tasks work_units).flatMap Task.resources).dedup

/-- A total assignment of values to the decision variables: a start
time per task, a slot per (task, resource) pair, and a value for the
`C_max` surrogate. -/
structure Assignment where
  start : Task → Int
  slot : Task → Resource → Int
  cmax : Int

/-- Value of an expression under an assignment.  `zeroVar` evaluates to
`0` because `nj.Variable([0])` has the one-point domain `{0}`. -/
def NJExpr.eval (σ : Assignment) : NJExpr → Int
  | .const n => n
  | .startVar t => σ.start t
  | .slotVar t r => σ.slot t r
  | .cmaxVar => σ.cmax
  | .zeroVar => 0
  | .add a b => a.eval σ + b.eval σ
  | .sub a b => a.eval σ - b.eval σ
  | .mul a b => a.eval σ * b.eval σ
  | .maxE a b => max (a.eval σ) (b.eval σ)

/-- The intervals `[start t, start t + duration t)` and
`[start u, start u + duration u)` do not overlap: one task fully
precedes the other. -/
def noOverlapB (σ : Assignment) (t u : Task) : Bool :=
  decide (σ.start t + t.duration ≤ σ.start u) ||
  decide (σ.start u + u.duration ≤ σ.start t)

/-- Modelled from the spec: the semantics of the Numberjack
`UnaryResource` global constraint (the library is not part of this
repository).  Per the specification it is "a single mutual-exclusion
constraint over the full participant set stating no two of their time
intervals may overlap". -/
def unaryResSat (σ : Assignment) : List Task → Bool
  | [] => true
  | t :: ts => ts.all (noOverlapB σ t) && unaryResSat σ ts

/-- Satisfaction of a constraint under an assignment. -/
def NJConstraint.sat (σ : Assignment) : NJConstraint → Bool
  | .le a b => decide (a.eval σ ≤ b.eval σ)
  | .lt a b => decide (a.eval σ < b.eval σ)
  | .gt a b => decide (a.eval σ > b.eval σ)
  | .eqC a b => decide (a.eval σ = b.eval σ)
  | .or2 c d => c.sat σ || d.sat σ
  | .allDiff2 a b => decide (a.eval σ ≠ b.eval σ)
  | .unaryResource ts => unaryResSat σ ts

/-- Embedding of `itertools.combinations(l, 2)`: all pairs of elements of `l` taken
in list order. -/
def combinations2 {α : Type} : List α → List (α × α)
  | [] => []
  | x :: xs => xs.map (fun y => (x, y)) ++ combinations2 xs

/-- The constraints emitted for one resource (the body of the
`for resource in all_resources` loop, source lines 72–99):
capacity 1 gives a single `UnaryResource` over every task requiring the
resource; capacity ≠ 1 gives, for every combination pair of tasks that
both require it, `Or([Or([t before u, u before t]), AllDiff([slots])])`. -/
def resource_constraints (allT : List Task) (resource : Resource) : List NJConstraint :=
  if resource.capacity = 1 then
    [ .unaryResource (allT.filter (fun task => decide (resource ∈ task.resources))) ]
  else
    ((combinations2 allT).filter
        (fun p => decide (resource ∈ p.1.resources) && decide (resource ∈ p.2.resources))).map
      (fun p =>
        .or2
          (.or2
            (.le (.add (.startVar p.1) (.const p.1.duration)) (.startVar p.2))
            (.le (.add (.startVar p.2) (.const p.2.duration)) (.startVar p.1)))
          (.allDiff2 (.slotVar p.1 resource) (.slotVar p.2 resource)))

/-- Intra-work-unit chain (source lines 101–106):
`nj_tasks[task] + task.duration <= nj_tasks[next_task]` for every
adjacent pair of `zip(work_unit.tasks, work_unit.tasks[1:])`. -/
def chain_constraints (work_units : List WorkUnit) : List NJConstraint :=
  work_units.flatMap (fun wu =>
    (wu.tasks.zip wu.tasks.tail).map (fun p =>
      .le (.add (.startVar p.1) (.const p.1.duration)) (.startVar p.2)))

/-- Custom per-work-unit constraints (source lines 108–115): each
builder is applied to the ordered start-variable list of the work unit. -/
def custom_constraints (work_units : List WorkUnit) : List NJConstraint :=
  work_units.flatMap (fun wu =>
    wu.constraints.map (fun c => c (wu.tasks.map NJExpr.startVar)))

/-- Cross-work-unit precedence (source lines 117–126):
`nj_tasks[parent.tasks[-1]] + parent.tasks[-1].duration <= nj_tasks[work_unit.tasks[0]]`
for every parent of every work unit. -/
def parent_constraints (work_units : List WorkUnit) : List NJConstraint :=
  work_units.flatMap (fun wu =>
    wu.parents.map (fun parent =>
      .le (.add (.startVar parent.lastTask) (.const parent.lastTask.duration))
          (.startVar wu.firstTask)))

/-- Fixed-start pins (source lines 128–133):
`nj.Eq([nj_tasks[work_unit.tasks[0]], work_unit.scheduled_start])`
for every work unit whose `scheduled_start` is not `None`. -/
def pin_constraints (work_units : List WorkUnit) : List NJConstraint :=
  work_units.filterMap (fun wu =>
    wu.scheduled_start.map (fun s =>
      .eqC (.startVar wu.firstTask) (.const s)))

/-- The Python `sum` over a list of expressions: a left fold of `+`
starting from the integer 0. -/
def sumExpr (es : List NJExpr) : NJExpr := es.foldl .add (.const 0)

/-- The weighted-tardiness terms of the `C_max` bound (source lines
146–153): `Max([ZERO, end(last task) - due_time]) * (1000*priority)`
for every work unit with a due time. -/
def tardy_terms (work_units : List WorkUnit) : List NJExpr :=
  work_units.filterMap (fun wu =>
    wu.due_time.map (fun due =>
      .mul (.maxE .zeroVar
              (.sub (.add (.startVar wu.lastTask) (.const wu.lastTask.duration))
                    (.const due)))
           (.const (1000 * wu.priority))))

/-- The completion-time compaction terms (source lines 154–158):
`nj_tasks[last] + last.duration` for every work unit. -/
def completion_terms (work_units : List WorkUnit) : List NJExpr :=
  work_units.map (fun wu =>
    .add (.startVar wu.lastTask) (.const wu.lastTask.duration))

/-- The single optimize-mode constraint (source lines 143–159):
`C_max > sum(tardy terms) + sum(completion terms)`. -/
def cmax_constraint (work_units : List WorkUnit) : NJConstraint :=
  .gt .cmaxVar (.add (sumExpr (tardy_terms work_units))
                     (sumExpr (completion_terms work_units)))

/-- The feasibility-mode hard deadlines (source lines 164–170):
`nj_tasks[last] + last.duration < due_time` for every work unit with a
due time. -/
def deadline_constraints (work_units : List WorkUnit) : List NJConstraint :=
  work_units.filterMap (fun wu =>
    wu.due_time.map (fun due =>
      .lt (.add (.startVar wu.lastTask) (.const wu.lastTask.duration))
          (.const due)))

/-- The constraints added in both modes, in source order: resource
contention, intra-work-unit chains, custom constraints, cross-work-unit
precedence, fixed-start pins. -/
def base_constraints (work_units : List WorkUnit) : List NJConstraint :=
  (all_resources work_units).flatMap (resource_constraints (all_tasks work_units))
  ++ chain_constraints work_units
  ++ custom_constraints work_units
  ++ parent_constraints work_units
  ++ pin_constraints work_units

/-- The assembled model: constraint list plus optional minimization
objective (`model.add(nj.Minimize(C_max))`). -/
structure NJModel where
  constraints : List NJConstraint
  objective : Option NJExpr

/-- The model built by `numberjack_scheduler` (source lines 45–170):
the shared constraints, then either the `C_max` bound and the
`Minimize(C_max)` objective (optimize mode) or the hard deadline
constraints (feasibility mode). -/
def numberjack_model (work_units : List WorkUnit) (optimize : Bool) : NJModel :=
  if optimize then
    ⟨base_constraints work_units ++ [cmax_constraint work_units], some NJExpr.cmaxVar⟩
  else
    ⟨base_constraints work_units ++ deadline_constraints work_units, none⟩

/-- Modelled from the spec: the domains of the decision variables.  The
Numberjack library that interprets `nj.Task(upper_bound, duration)`,
`nj.Variable(1, capacity)` and `nj.Variable(0, 1500000)` (named C_max) is not
part of this repository; per the specification the start-time decision
of every task ranges over `[0, upper_bound)`, each slot decision over
`[1, capacity]`, and the surrogate over `[0, 1500000]` (only present in
optimize mode). -/
def inDomains (work_units : List WorkUnit) (upper_bound : Int)
    (optimize : Bool) (σ : Assignment) : Bool :=
  ((all_tasks work_units).all (fun task =>
      decide (0 ≤ σ.start task) && decide (σ.start task < upper_bound)))
  && ((all_tasks work_units).all (fun task =>
      task.resources.all (fun resource =>
        decide (1 ≤ σ.slot task resource) &&
        decide (σ.slot task resource ≤ resource.capacity))))
  && (!optimize || (decide (0 ≤ σ.cmax) && decide (σ.cmax ≤ 1500000)))

/-- An assignment satisfies a model when it satisfies every constraint. -/
def modelSat (m : NJModel) (σ : Assignment) : Bool :=
  m.constraints.all (NJConstraint.sat σ)

/-- An assignment is a solution of the scheduling problem when it lies
in all variable domains and satisfies every built constraint. -/
def schedulerSat (work_units : List WorkUnit) (upper_bound : Int)
    (optimize : Bool) (σ : Assignment) : Bool :=
  inDomains work_units upper_bound optimize σ &&
  modelSat (numberjack_model work_units optimize) σ

/-- The value written into `task.scheduled` on success:
`(start, end, {resource: slot})` (source lines 180–186). -/
structure Scheduled where
  start : Int
  stop : Int
  resources : List (Resource × Int)
deriving DecidableEq, Repr

/-- The message of the `ValueError` raised on solver failure
(source line 178). -/
def no_solution_msg : String :=
  "No solution found by the schedule optimizer !"

/-- The solve / materialize tail of `numberjack_scheduler` (source
lines 172–188).  The external solver is abstracted as its verdict: no
assignment (`solver.solve()` returned `False`) or a concrete
assignment.  The mutable `scheduled` fields are threaded as a map from
tasks to optional triples; the result pairs the outcome (normal return
or the raised `ValueError`) with the final state of that map. -/
def numberjack_scheduler_run (work_units : List WorkUnit)
    (solveResult : Option Assignment)
    (sched0 : Task → Option Scheduled) :
    Except String Unit × (Task → Option Scheduled) :=
  match solveResult with
  | none => (Except.error no_solution_msg, sched0)
  | some σ =>
    (Except.ok (),
     fun task =>
       if task ∈ all_tasks work_units then
         some ⟨σ.start task, σ.start task + task.duration,
               task.resources.map (fun resource => (resource, σ.slot task resource))⟩
       else sched0 task)

/-- The `end(last task)` of a work unit under an assignment: the completion
time used by both objective modes. -/
def completion_time (σ : Assignment) (wu : WorkUnit) : Int :=
  σ.start wu.lastTask + wu.lastTask.duration

/-! ### A concrete scenario, used to instantiate the theorems below.

Two resources (one exclusive, one with two slots), a two-task work unit
pinned to start at 0, and a one-task work unit depending on it with a
due time. -/

def res1 : Resource := ⟨1, 1⟩
def res2 : Resource := ⟨2, 2⟩
def taskA1 : Task := ⟨1, 3, [res1]⟩
def taskA2 : Task := ⟨2, 2, [res2]⟩
def taskB1 : Task := ⟨3, 4, [res1, res2]⟩
def wuA : WorkUnit := .mk 1 [taskA1, taskA2] [] [] none 1 (some 0)
def wuB : WorkUnit := .mk 2 [taskB1] [] [wuA] (some 20) 1 none
def demoUnits : List WorkUnit := [wuA, wuB]

/-- A satisfying assignment for `demoUnits`:
`taskA1 : [0,3)`, `taskA2 : [3,5)`, `taskB1 : [5,9)`, all slots 1,
surrogate 15. -/
def demoAssignment : Assignment :=
  ⟨fun t => if t.tid = 1 then 0 else if t.tid = 2 then 3 else 5,
   fun _ _ => 1, 15⟩

/-- A work unit that must miss its due time (duration 2, due 1). -/
def softTask : Task := ⟨0, 2, []⟩
def softUnit : WorkUnit := .mk 0 [softTask] [] [] (some 1) 1 none

/-- An assignment that misses the due time of `softUnit` yet satisfies the
optimize-mode model. -/
def softAssignment : Assignment := ⟨fun _ => 0, fun _ _ => 1, 1003⟩

example : schedulerSat demoUnits 50 false demoAssignment = true := by decide
example : schedulerSat demoUnits 50 true demoAssignment = true := by decide
example : schedulerSat [softUnit] 10 true softAssignment = true := by decide

/-! ### Plumbing lemmas -/

theorem mem_model_of_mem_base {work_units : List WorkUnit} {optimize : Bool}
    {c : NJConstraint} (hc : c ∈ base_constraints work_units) :
    c ∈ (numberjack_model work_units optimize).constraints := by
  cases optimize <;>
    simp only [numberjack_model, if_true, if_false, Bool.false_eq_true,
      List.mem_append] <;>
    exact Or.inl hc

theorem sat_of_mem_model {work_units : List WorkUnit} {ub : Int} {optimize : Bool}
    {σ : Assignment} {c : NJConstraint}
    (hσ : schedulerSat work_units ub optimize σ = true)
    (hc : c ∈ (numberjack_model work_units optimize).constraints) :
    c.sat σ = true := by
  have h := (Bool.and_eq_true _ _).mp hσ
  have h2 := h.2
  rw [modelSat, List.all_eq_true] at h2
  exact h2 c hc

theorem start_in_domain {work_units : List WorkUnit} {ub : Int} {optimize : Bool}
    {σ : Assignment} {t : Task}
    (hσ : schedulerSat work_units ub optimize σ = true)
    (ht : t ∈ all_tasks work_units) :
    0 ≤ σ.start t ∧ σ.start t < ub := by
  have h := ((Bool.and_eq_true _ _).mp hσ).1
  rw [inDomains] at h
  have h1 := ((Bool.and_eq_true _ _).mp ((Bool.and_eq_true _ _).mp h).1).1
  rw [List.all_eq_true] at h1
  have := h1 t ht
  rw [Bool.and_eq_true, decide_eq_true_eq, decide_eq_true_eq] at this
  exact this

theorem slot_in_domain {work_units : List WorkUnit} {ub : Int} {optimize : Bool}
    {σ : Assignment} {t : Task} {r : Resource}
    (hσ : schedulerSat work_units ub optimize σ = true)
    (ht : t ∈ all_tasks work_units) (hr : r ∈ t.resources) :
    1 ≤ σ.slot t r ∧ σ.slot t r ≤ r.capacity := by
  have h := ((Bool.and_eq_true _ _).mp hσ).1
  rw [inDomains] at h
  have h1 := ((Bool.and_eq_true _ _).mp ((Bool.and_eq_true _ _).mp h).1).2
  rw [List.all_eq_true] at h1
  have h2 := h1 t ht
  rw [List.all_eq_true] at h2
  have := h2 r hr
  rw [Bool.and_eq_true, decide_eq_true_eq, decide_eq_true_eq] at this
  exact this

theorem cmax_in_domain {work_units : List WorkUnit} {ub : Int} {σ : Assignment}
    (hσ : schedulerSat work_units ub true σ = true) :
    0 ≤ σ.cmax ∧ σ.cmax ≤ 1500000 := by
  have h := ((Bool.and_eq_true _ _).mp hσ).1
  rw [inDomains] at h
  have h1 := ((Bool.and_eq_true _ _).mp h).2
  rw [Bool.not_true, Bool.false_or, Bool.and_eq_true, decide_eq_true_eq,
    decide_eq_true_eq] at h1
  exact h1

theorem combinations2_mem {α : Type} {l : List α} {t u : α}
    (ht : t ∈ l) (hu : u ∈ l) (hne : t ≠ u) :
    (t, u) ∈ combinations2 l ∨ (u, t) ∈ combinations2 l := by
  induction l with
  | nil => cases ht
  | cons x xs ih =>
    rcases List.mem_cons.mp ht with rfl | ht'
    · rcases List.mem_cons.mp hu with rfl | hu'
      · exact absurd rfl hne
      · left
        rw [combinations2, List.mem_append]
        exact Or.inl (List.mem_map.mpr ⟨u, hu', rfl⟩)
    · rcases List.mem_cons.mp hu with rfl | hu'
      · right
        rw [combinations2, List.mem_append]
        exact Or.inl (List.mem_map.mpr ⟨t, ht', rfl⟩)
      · rcases ih ht' hu' with h | h
        · left
          rw [combinations2, List.mem_append]
          exact Or.inr h
        · right
          rw [combinations2, List.mem_append]
          exact Or.inr h

theorem combinations2_filter {α : Type} (p : α → Bool) :
    ∀ l : List α,
      (combinations2 l).filter (fun q => p q.1 && p q.2) =
        combinations2 (l.filter p)
  | [] => rfl
  | x :: xs => by
    rw [combinations2, List.filter_append, List.filter_map,
      combinations2_filter p xs, List.filter_cons]
    by_cases hx : p x = true
    · simp only [hx, if_true, combinations2]
      congr 1
      congr 1
      apply List.filter_congr
      intro a _
      simp [hx]
    · simp only [hx, if_false]
      have : xs.filter ((fun q => p q.1 && p q.2) ∘ fun y => (x, y)) = [] := by
        apply List.filter_eq_nil_iff.mpr
        intro a _
        simp [Bool.eq_false_iff.mpr hx]
      rw [this]
      simp [Bool.eq_false_iff.mpr hx]

theorem combinations2_length {α : Type} :
    ∀ l : List α, (combinations2 l).length = Nat.choose l.length 2
  | [] => rfl
  | x :: xs => by
    rw [combinations2, List.length_append, List.length_map,
      combinations2_length xs, List.length_cons, Nat.choose_succ_succ,
      Nat.choose_one_right]

theorem unaryResSat_pairwise {σ : Assignment} :
    ∀ {l : List Task}, unaryResSat σ l = true →
      ∀ {t u : Task}, t ∈ l → u ∈ l → t ≠ u →
        σ.start t + t.duration ≤ σ.start u ∨
        σ.start u + u.duration ≤ σ.start t := by
  intro l
  induction l with
  | nil => intro _ t u ht; cases ht
  | cons x xs ih =>
    intro h t u ht hu hne
    rw [unaryResSat, Bool.and_eq_true, List.all_eq_true] at h
    rcases List.mem_cons.mp ht with rfl | ht'
    · rcases List.mem_cons.mp hu with rfl | hu'
      · exact absurd rfl hne
      · have hx := h.1 u hu'
        rw [noOverlapB, Bool.or_eq_true, decide_eq_true_eq, decide_eq_true_eq] at hx
        exact hx
    · rcases List.mem_cons.mp hu with rfl | hu'
      · have hx := h.1 t ht'
        rw [noOverlapB, Bool.or_eq_true, decide_eq_true_eq, decide_eq_true_eq] at hx
        exact hx.symm
      · exact ih h.2 ht' hu' hne

theorem eval_foldl_add (σ : Assignment) :
    ∀ (es : List NJExpr) (acc : NJExpr),
      (es.foldl NJExpr.add acc).eval σ =
        acc.eval σ + (es.map (fun e => e.eval σ)).sum
  | [], acc => by simp
  | e :: es, acc => by
    rw [List.foldl_cons, eval_foldl_add σ es (acc.add e), List.map_cons,
      List.sum_cons]
    show acc.eval σ + e.eval σ + _ = _
    ring

theorem eval_sumExpr (σ : Assignment) (es : List NJExpr) :
    (sumExpr es).eval σ = (es.map (fun e => e.eval σ)).sum := by
  rw [sumExpr, eval_foldl_add]
  show (0 : Int) + _ = _
  ring

theorem pin_constraints_length_eq (work_units : List WorkUnit) :
    (pin_constraints work_units).length =
      (work_units.filter (fun wu => wu.scheduled_start.isSome)).length := by
  induction work_units with
  | nil => rfl
  | cons wu wus ih =>
    rw [pin_constraints, List.filterMap_cons, List.filter_cons]
    cases h : wu.scheduled_start with
    | none => simp only [h, Option.map_none', Option.isSome_none, if_false]; exact ih
    | some s =>
      simp only [h, Option.map_some', Option.isSome_some, if_true, List.length_cons]
      exact congrArg (· + 1) ih

theorem mem_base_of_mem_resource {work_units : List WorkUnit} {c : NJConstraint}
    (h : c ∈ (all_resources work_units).flatMap
          (resource_constraints (all_tasks work_units))) :
    c ∈ base_constraints work_units := by
  rw [base_constraints]
  simp only [List.mem_append]
  exact Or.inl (Or.inl (Or.inl (Or.inl h)))

theorem mem_base_of_mem_parent {work_units : List WorkUnit} {c : NJConstraint}
    (h : c ∈ parent_constraints work_units) :
    c ∈ base_constraints work_units := by
  rw [base_constraints]
  simp only [List.mem_append]
  exact Or.inl (Or.inr h)

theorem mem_base_of_mem_pin {work_units : List WorkUnit} {c : NJConstraint}
    (h : c ∈ pin_constraints work_units) :
    c ∈ base_constraints work_units := by
  rw [base_constraints]
  simp only [List.mem_append]
  exact Or.inr h

/-! ### Claim theorems -/

/-- C6: for every work unit and every adjacent pair
`(task, next_task)` of its ordered task sequence, the built model
contains the constraint `start(task) + duration(task) ≤ start(next_task)`,
and any assignment satisfying the model executes the tasks strictly in
list order with no mandated gap. -/
theorem chain_order_enforced (work_units : List WorkUnit) (ub : Int)
    (optimize : Bool) (σ : Assignment)
    (hσ : schedulerSat work_units ub optimize σ = true)
    (wu : WorkUnit) (hwu : wu ∈ work_units)
    (t nt : Task) (hadj : (t, nt) ∈ wu.tasks.zip wu.tasks.tail) :
    NJConstraint.le (.add (.startVar t) (.const t.duration)) (.startVar nt) ∈
      (numberjack_model work_units optimize).constraints ∧
    σ.start t + t.duration ≤ σ.start nt := by
  have hmem : NJConstraint.le (.add (.startVar t) (.const t.duration))
      (.startVar nt) ∈ chain_constraints work_units := by
    rw [chain_constraints, List.mem_flatMap]
    exact ⟨wu, hwu, List.mem_map.mpr ⟨(t, nt), hadj, rfl⟩⟩
  have hbase : NJConstraint.le (.add (.startVar t) (.const t.duration))
      (.startVar nt) ∈ base_constraints work_units := by
    rw [base_constraints]
    simp only [List.mem_append]
    exact Or.inl (Or.inl (Or.inl (Or.inr hmem)))
  refine ⟨mem_model_of_mem_base hbase, ?_⟩
  have hsat := sat_of_mem_model hσ (mem_model_of_mem_base hbase)
  simp only [NJConstraint.sat, NJExpr.eval, decide_eq_true_eq] at hsat
  exact hsat

/-- C7: for every pair `(child, parent)` with `parent` among the
parents of the child, the built model contains the constraint
`start(last task of parent) + duration(last task of parent) ≤
start(first task of child)`, and any satisfying assignment obeys it;
with several parents every one of these constraints holds
simultaneously. -/
theorem parent_precedence_enforced (work_units : List WorkUnit) (ub : Int)
    (optimize : Bool) (σ : Assignment)
    (hσ : schedulerSat work_units ub optimize σ = true)
    (wu : WorkUnit) (hwu : wu ∈ work_units)
    (parent : WorkUnit) (hp : parent ∈ wu.parents) :
    NJConstraint.le
        (.add (.startVar parent.lastTask) (.const parent.lastTask.duration))
        (.startVar wu.firstTask) ∈
      (numberjack_model work_units optimize).constraints ∧
    σ.start parent.lastTask + parent.lastTask.duration ≤ σ.start wu.firstTask := by
  have hmem : NJConstraint.le
      (.add (.startVar parent.lastTask) (.const parent.lastTask.duration))
      (.startVar wu.firstTask) ∈ parent_constraints work_units := by
    rw [parent_constraints, List.mem_flatMap]
    exact ⟨wu, hwu, List.mem_map.mpr ⟨parent, hp, rfl⟩⟩
  refine ⟨mem_model_of_mem_base (mem_base_of_mem_parent hmem), ?_⟩
  have hsat := sat_of_mem_model hσ
    (mem_model_of_mem_base (mem_base_of_mem_parent hmem))
  simp only [NJConstraint.sat, NJExpr.eval, decide_eq_true_eq] at hsat
  exact hsat

/-- C8: for every work unit whose `scheduled_start` is set, the
built model contains the hard equality pinning the start of the first task
to that value, so any satisfying assignment starts the first task
exactly there; and the pin constraints are exactly one per work unit
with a set `scheduled_start` (work units with it unset receive none). -/
theorem scheduled_start_pinned (work_units : List WorkUnit) (ub : Int)
    (optimize : Bool) (σ : Assignment)
    (hσ : schedulerSat work_units ub optimize σ = true)
    (wu : WorkUnit) (hwu : wu ∈ work_units)
    (s : Int) (hs : wu.scheduled_start = some s) :
    NJConstraint.eqC (.startVar wu.firstTask) (.const s) ∈
      (numberjack_model work_units optimize).constraints ∧
    σ.start wu.firstTask = s ∧
    (pin_constraints work_units).length =
      (work_units.filter (fun w => w.scheduled_start.isSome)).length := by
  have hmem : NJConstraint.eqC (.startVar wu.firstTask) (.const s) ∈
      pin_constraints work_units := by
    rw [pin_constraints]
    exact List.mem_filterMap.mpr ⟨wu, hwu, by rw [hs]; rfl⟩
  refine ⟨mem_model_of_mem_base (mem_base_of_mem_pin hmem), ?_,
    pin_constraints_length_eq work_units⟩
  have hsat := sat_of_mem_model hσ (mem_model_of_mem_base (mem_base_of_mem_pin hmem))
  simp only [NJConstraint.sat, NJExpr.eval, decide_eq_true_eq] at hsat
  exact hsat

/-- C9: in any assignment within the created variable domains, the
start-time decision of every task (over the flattened task sequences of
all work units) lies in the half-open range `[0, upper_bound)`,
independent of the duration of the task. -/
theorem start_domain_half_open (work_units : List WorkUnit) (ub : Int)
    (optimize : Bool) (σ : Assignment)
    (hσ : schedulerSat work_units ub optimize σ = true)
    (t : Task) (ht : t ∈ all_tasks work_units) :
    0 ≤ σ.start t ∧ σ.start t < ub :=
  start_in_domain hσ ht

/-- C5: the scheduling call is all-or-nothing.  If the solver
reports no solution the call raises the single "no solution found"
failure and the `scheduled` map is returned untouched; if the solver
returns an assignment the call succeeds and the `scheduled`
field of every task is set to `(start, start + duration, resource ↦ slot)`. -/
theorem all_or_nothing_materialization (work_units : List WorkUnit)
    (σ : Assignment) (sched0 : Task → Option Scheduled)
    (t : Task) (ht : t ∈ all_tasks work_units) :
    numberjack_scheduler_run work_units none sched0 =
      (Except.error no_solution_msg, sched0) ∧
    (numberjack_scheduler_run work_units (some σ) sched0).1 = Except.ok () ∧
    (numberjack_scheduler_run work_units (some σ) sched0).2 t =
      some ⟨σ.start t, σ.start t + t.duration,
            t.resources.map (fun r => (r, σ.slot t r))⟩ := by
  refine ⟨rfl, rfl, ?_⟩
  simp only [numberjack_scheduler_run]
  rw [if_pos ht]

/-- C4: in feasibility mode the built model has no minimization
objective and no surrogate constraint — its constraints are exactly the
shared ones plus one hard deadline `completion_time < due_time` per
due-dated work unit — every satisfying assignment meets every deadline
strictly, and a solver verdict of "no solution" makes the call fail
outright, leaving the `scheduled` map untouched. -/
theorem feasibility_mode_hard_deadlines (work_units : List WorkUnit)
    (ub : Int) (σ : Assignment)
    (hσ : schedulerSat work_units ub false σ = true) :
    (numberjack_model work_units false).objective = none ∧
    (numberjack_model work_units false).constraints =
      base_constraints work_units ++ deadline_constraints work_units ∧
    (∀ wu ∈ work_units, ∀ due : Int, wu.due_time = some due →
      completion_time σ wu < due) ∧
    (∀ sched0 : Task → Option Scheduled,
      numberjack_scheduler_run work_units none sched0 =
        (Except.error no_solution_msg, sched0)) := by
  refine ⟨rfl, rfl, ?_, fun _ => rfl⟩
  intro wu hwu due hdue
  have hmem : NJConstraint.lt
      (.add (.startVar wu.lastTask) (.const wu.lastTask.duration))
      (.const due) ∈ (numberjack_model work_units false).constraints := by
    show _ ∈ base_constraints work_units ++ deadline_constraints work_units
    refine List.mem_append.mpr (Or.inr ?_)
    rw [deadline_constraints]
    exact List.mem_filterMap.mpr ⟨wu, hwu, by rw [hdue]; rfl⟩
  have hsat := sat_of_mem_model hσ hmem
  simp only [NJConstraint.sat, NJExpr.eval, decide_eq_true_eq] at hsat
  exact hsat

/-- C2: for every resource of capacity 1 the per-resource generator
emits a single global mutual-exclusion constraint over the full set of
tasks requiring it (one `UnaryResource`, not a pairwise decomposition),
the model contains it, and in any satisfying assignment the
`[start, start+duration)` intervals of two distinct tasks requiring the
resource never overlap (one fully precedes the other). -/
theorem exclusive_resource_mutex (work_units : List WorkUnit) (ub : Int)
    (optimize : Bool) (σ : Assignment) (resource : Resource)
    (hσ : schedulerSat work_units ub optimize σ = true)
    (hr : resource ∈ all_resources work_units)
    (hcap : resource.capacity = 1)
    (t u : Task) (ht : t ∈ all_tasks work_units) (hu : u ∈ all_tasks work_units)
    (htr : resource ∈ t.resources) (hur : resource ∈ u.resources)
    (hne : t ≠ u) :
    resource_constraints (all_tasks work_units) resource =
      [.unaryResource ((all_tasks work_units).filter
          (fun task => decide (resource ∈ task.resources)))] ∧
    (σ.start t + t.duration ≤ σ.start u ∨
      σ.start u + u.duration ≤ σ.start t) := by
  have heq : resource_constraints (all_tasks work_units) resource =
      [.unaryResource ((all_tasks work_units).filter
          (fun task => decide (resource ∈ task.resources)))] := by
    rw [resource_constraints, if_pos hcap]
  refine ⟨heq, ?_⟩
  have hmem : NJConstraint.unaryResource ((all_tasks work_units).filter
      (fun task => decide (resource ∈ task.resources))) ∈
      (all_resources work_units).flatMap
        (resource_constraints (all_tasks work_units)) := by
    rw [List.mem_flatMap]
    exact ⟨resource, hr, by rw [heq]; exact List.mem_singleton.mpr rfl⟩
  have hsat := sat_of_mem_model hσ
    (mem_model_of_mem_base (mem_base_of_mem_resource hmem))
  simp only [NJConstraint.sat] at hsat
  exact unaryResSat_pairwise hsat
    (List.mem_filter.mpr ⟨ht, by simpa using htr⟩)
    (List.mem_filter.mpr ⟨hu, by simpa using hur⟩) hne

/-- C1: for every resource of capacity > 1, the per-resource
generator emits exactly `n*(n-1)/2` disjunctive constraints where `n`
is the number of tasks requiring the resource (one per unordered pair),
and in any satisfying assignment every pair of distinct tasks requiring
it either does not overlap in time (one fully precedes the other) or
takes different slot values for the resource, each slot lying in
`[1, capacity]`. -/
theorem pooled_resource_disjunctions (work_units : List WorkUnit) (ub : Int)
    (optimize : Bool) (σ : Assignment) (resource : Resource)
    (hσ : schedulerSat work_units ub optimize σ = true)
    (hr : resource ∈ all_resources work_units)
    (hcap : 1 < resource.capacity)
    (t u : Task) (ht : t ∈ all_tasks work_units) (hu : u ∈ all_tasks work_units)
    (htr : resource ∈ t.resources) (hur : resource ∈ u.resources)
    (hne : t ≠ u) :
    (resource_constraints (all_tasks work_units) resource).length =
      (((all_tasks work_units).filter
          (fun task => decide (resource ∈ task.resources))).length *
        (((all_tasks work_units).filter
          (fun task => decide (resource ∈ task.resources))).length - 1)) / 2 ∧
    (σ.start t + t.duration ≤ σ.start u ∨ σ.start u + u.duration ≤ σ.start t ∨
      σ.slot t resource ≠ σ.slot u resource) ∧
    (1 ≤ σ.slot t resource ∧ σ.slot t resource ≤ resource.capacity) ∧
    (1 ≤ σ.slot u resource ∧ σ.slot u resource ≤ resource.capacity) := by
  have hcap' : ¬ resource.capacity = 1 := by omega
  refine ⟨?_, ?_, slot_in_domain hσ ht htr, slot_in_domain hσ hu hur⟩
  · have hfl := combinations2_filter
      (fun task => decide (resource ∈ task.resources)) (all_tasks work_units)
    rw [resource_constraints, if_neg hcap', List.length_map, hfl,
      combinations2_length, Nat.choose_two_right]
  rcases combinations2_mem ht hu hne with hp | hp
  · have hmemc : NJConstraint.or2
        (.or2 (.le (.add (.startVar t) (.const t.duration)) (.startVar u))
              (.le (.add (.startVar u) (.const u.duration)) (.startVar t)))
        (.allDiff2 (.slotVar t resource) (.slotVar u resource)) ∈
        resource_constraints (all_tasks work_units) resource := by
      rw [resource_constraints, if_neg hcap']
      refine List.mem_map.mpr ⟨(t, u), ?_, rfl⟩
      exact List.mem_filter.mpr ⟨hp, by simp [htr, hur]⟩
    have hmem : _ ∈ (all_resources work_units).flatMap
        (resource_constraints (all_tasks work_units)) :=
      List.mem_flatMap.mpr ⟨resource, hr, hmemc⟩
    have hsat := sat_of_mem_model hσ
      (mem_model_of_mem_base (mem_base_of_mem_resource hmem))
    simp only [NJConstraint.sat, NJExpr.eval, Bool.or_eq_true,
      decide_eq_true_eq] at hsat
    rcases hsat with (h | h) | h
    · exact Or.inl h
    · exact Or.inr (Or.inl h)
    · exact Or.inr (Or.inr h)
  · have hmemc : NJConstraint.or2
        (.or2 (.le (.add (.startVar u) (.const u.duration)) (.startVar t))
              (.le (.add (.startVar t) (.const t.duration)) (.startVar u)))
        (.allDiff2 (.slotVar u resource) (.slotVar t resource)) ∈
        resource_constraints (all_tasks work_units) resource := by
      rw [resource_constraints, if_neg hcap']
      refine List.mem_map.mpr ⟨(u, t), ?_, rfl⟩
      exact List.mem_filter.mpr ⟨hp, by simp [htr, hur]⟩
    have hmem : _ ∈ (all_resources work_units).flatMap
        (resource_constraints (all_tasks work_units)) :=
      List.mem_flatMap.mpr ⟨resource, hr, hmemc⟩
    have hsat := sat_of_mem_model hσ
      (mem_model_of_mem_base (mem_base_of_mem_resource hmem))
    simp only [NJConstraint.sat, NJExpr.eval, Bool.or_eq_true,
      decide_eq_true_eq] at hsat
    rcases hsat with (h | h) | h
    · exact Or.inr (Or.inl h)
    · exact Or.inl h
    · exact Or.inr (Or.inr (Ne.symm h))

/-- C3: in optimize mode the built model sets the objective to
minimize the surrogate `C_max`, adds exactly one constraint beyond the
shared ones, the surrogate is bounded within `[0, 1500000]`, and in any
satisfying assignment the surrogate strictly exceeds the sum over
due-dated work units of `1000 * priority * max 0 (completion - due)`
plus the sum over all work units of their completion times, where the
completion time of a work unit is the start of its last task plus the
duration of that task. -/
theorem optimize_objective_surrogate (work_units : List WorkUnit) (ub : Int)
    (σ : Assignment)
    (hσ : schedulerSat work_units ub true σ = true) :
    (numberjack_model work_units true).objective = some NJExpr.cmaxVar ∧
    (numberjack_model work_units true).constraints =
      base_constraints work_units ++ [cmax_constraint work_units] ∧
    (0 ≤ σ.cmax ∧ σ.cmax ≤ 1500000) ∧
    σ.cmax >
      (work_units.filterMap (fun wu => wu.due_time.map (fun due =>
          1000 * wu.priority * max 0 (completion_time σ wu - due)))).sum +
      (work_units.map (fun wu => completion_time σ wu)).sum := by
  refine ⟨rfl, rfl, cmax_in_domain hσ, ?_⟩
  have hmem : cmax_constraint work_units ∈
      (numberjack_model work_units true).constraints := by
    show _ ∈ base_constraints work_units ++ [cmax_constraint work_units]
    exact List.mem_append.mpr (Or.inr (List.mem_singleton.mpr rfl))
  have hsat := sat_of_mem_model hσ hmem
  rw [cmax_constraint] at hsat
  simp only [NJConstraint.sat, NJExpr.eval, decide_eq_true_eq] at hsat
  rw [eval_sumExpr σ (tardy_terms work_units),
    eval_sumExpr σ (completion_terms work_units), tardy_terms,
    completion_terms, List.map_filterMap, List.map_map] at hsat
  have htardy : work_units.filterMap (fun wu =>
      Option.map (fun e => NJExpr.eval σ e)
        (Option.map (fun due =>
          NJExpr.mul (.maxE .zeroVar
              (.sub (.add (.startVar wu.lastTask) (.const wu.lastTask.duration))
                    (.const due)))
            (.const (1000 * wu.priority))) wu.due_time)) =
      work_units.filterMap (fun wu => wu.due_time.map (fun due =>
        1000 * wu.priority * max 0 (completion_time σ wu - due))) := by
    apply List.filterMap_congr
    intro wu _
    rw [Option.map_map]
    apply congrArg (fun f => Option.map f wu.due_time)
    funext due
    show max (0 : Int) (σ.start wu.lastTask + wu.lastTask.duration - due) *
        (1000 * wu.priority) = _
    rw [completion_time]
    ring
  have hcompl : work_units.map ((fun e => NJExpr.eval σ e) ∘ fun wu =>
      NJExpr.add (.startVar wu.lastTask) (.const wu.lastTask.duration)) =
      work_units.map (fun wu => completion_time σ wu) := by
    apply congrArg (fun f => List.map f work_units)
    funext wu
    show σ.start wu.lastTask + wu.lastTask.duration = _
    rw [completion_time]
  rw [htardy, hcompl] at hsat
  exact hsat

/-- C10: in optimize mode due dates are soft: the constraints of the built
model are always exactly the shared constraints plus the single
surrogate bound (no hard deadline constraint for any due-dated work
unit), and a concrete model admits a satisfying assignment whose
completion time (2) exceeds the due time of the work unit (1). -/
theorem optimize_soft_due_dates :
    (∀ work_units : List WorkUnit,
      (numberjack_model work_units true).constraints =
        base_constraints work_units ++ [cmax_constraint work_units]) ∧
    schedulerSat [softUnit] 10 true softAssignment = true ∧
    softUnit.due_time = some 1 ∧
    completion_time softAssignment softUnit = 2 := by
  exact ⟨fun _ => rfl, by decide, rfl, rfl⟩

/-! ### Witnesses: the claim theorems instantiated on the concrete
scenario, with every hypothesis discharged. -/

/-- C1 instantiated: `res2` (capacity 2) is shared by `taskA2` and
`taskB1` in the demo scenario. -/
theorem pooled_resource_disjunctions_witness :
    (resource_constraints (all_tasks demoUnits) res2).length =
      (((all_tasks demoUnits).filter
          (fun task => decide (res2 ∈ task.resources))).length *
        (((all_tasks demoUnits).filter
          (fun task => decide (res2 ∈ task.resources))).length - 1)) / 2 ∧
    (demoAssignment.start taskA2 + taskA2.duration ≤ demoAssignment.start taskB1 ∨
      demoAssignment.start taskB1 + taskB1.duration ≤ demoAssignment.start taskA2 ∨
      demoAssignment.slot taskA2 res2 ≠ demoAssignment.slot taskB1 res2) ∧
    (1 ≤ demoAssignment.slot taskA2 res2 ∧
      demoAssignment.slot taskA2 res2 ≤ res2.capacity) ∧
    (1 ≤ demoAssignment.slot taskB1 res2 ∧
      demoAssignment.slot taskB1 res2 ≤ res2.capacity) :=
  pooled_resource_disjunctions demoUnits 50 false demoAssignment res2
    (by decide) (by decide) (by decide) taskA2 taskB1
    (by decide) (by decide) (by decide) (by decide) (by decide)

/-- C2 instantiated: `res1` (capacity 1) is shared by `taskA1` and
`taskB1` in the demo scenario. -/
theorem exclusive_resource_mutex_witness :
    resource_constraints (all_tasks demoUnits) res1 =
      [.unaryResource ((all_tasks demoUnits).filter
          (fun task => decide (res1 ∈ task.resources)))] ∧
    (demoAssignment.start taskA1 + taskA1.duration ≤ demoAssignment.start taskB1 ∨
      demoAssignment.start taskB1 + taskB1.duration ≤ demoAssignment.start taskA1) :=
  exclusive_resource_mutex demoUnits 50 true demoAssignment res1
    (by decide) (by decide) (by decide) taskA1 taskB1
    (by decide) (by decide) (by decide) (by decide) (by decide)

/-- C3 instantiated on the demo scenario in optimize mode. -/
theorem optimize_objective_surrogate_witness :
    (numberjack_model demoUnits true).objective = some NJExpr.cmaxVar ∧
    (numberjack_model demoUnits true).constraints =
      base_constraints demoUnits ++ [cmax_constraint demoUnits] ∧
    (0 ≤ demoAssignment.cmax ∧ demoAssignment.cmax ≤ 1500000) ∧
    demoAssignment.cmax >
      (demoUnits.filterMap (fun wu => wu.due_time.map (fun due =>
          1000 * wu.priority * max 0 (completion_time demoAssignment wu - due)))).sum +
      (demoUnits.map (fun wu => completion_time demoAssignment wu)).sum :=
  optimize_objective_surrogate demoUnits 50 demoAssignment (by decide)

/-- C4 instantiated on the demo scenario in feasibility mode. -/
theorem feasibility_mode_hard_deadlines_witness :
    (numberjack_model demoUnits false).objective = none ∧
    (numberjack_model demoUnits false).constraints =
      base_constraints demoUnits ++ deadline_constraints demoUnits ∧
    (∀ wu ∈ demoUnits, ∀ due : Int, wu.due_time = some due →
      completion_time demoAssignment wu < due) ∧
    (∀ sched0 : Task → Option Scheduled,
      numberjack_scheduler_run demoUnits none sched0 =
        (Except.error no_solution_msg, sched0)) :=
  feasibility_mode_hard_deadlines demoUnits 50 demoAssignment (by decide)

/-- C5 instantiated: materialization of the demo assignment for
`taskA1`, starting from an empty `scheduled` map. -/
theorem all_or_nothing_materialization_witness :
    numberjack_scheduler_run demoUnits none (fun _ => none) =
      (Except.error no_solution_msg,
       fun _ => none) ∧
    (numberjack_scheduler_run demoUnits (some demoAssignment) (fun _ => none)).1 =
      Except.ok () ∧
    (numberjack_scheduler_run demoUnits (some demoAssignment) (fun _ => none)).2
        taskA1 =
      some ⟨demoAssignment.start taskA1,
            demoAssignment.start taskA1 + taskA1.duration,
            taskA1.resources.map (fun r => (r, demoAssignment.slot taskA1 r))⟩ :=
  all_or_nothing_materialization demoUnits demoAssignment (fun _ => none)
    taskA1 (by decide)

/-- C6 instantiated: the adjacent pair `(taskA1, taskA2)` of `wuA`. -/
theorem chain_order_enforced_witness :
    NJConstraint.le (.add (.startVar taskA1) (.const taskA1.duration))
        (.startVar taskA2) ∈
      (numberjack_model demoUnits false).constraints ∧
    demoAssignment.start taskA1 + taskA1.duration ≤ demoAssignment.start taskA2 :=
  chain_order_enforced demoUnits 50 false demoAssignment (by decide)
    wuA (List.mem_cons_self wuA [wuB]) taskA1 taskA2 (by decide)

/-- C7 instantiated: `wuB` depends on `wuA`. -/
theorem parent_precedence_enforced_witness :
    NJConstraint.le
        (.add (.startVar wuA.lastTask) (.const wuA.lastTask.duration))
        (.startVar wuB.firstTask) ∈
      (numberjack_model demoUnits false).constraints ∧
    demoAssignment.start wuA.lastTask + wuA.lastTask.duration ≤
      demoAssignment.start wuB.firstTask :=
  parent_precedence_enforced demoUnits 50 false demoAssignment (by decide)
    wuB (List.mem_cons_of_mem wuA (List.mem_cons_self wuB []))
    wuA (List.mem_cons_self wuA [])

/-- C8 instantiated: `wuA` is pinned to start at 0. -/
theorem scheduled_start_pinned_witness :
    NJConstraint.eqC (.startVar wuA.firstTask) (.const 0) ∈
      (numberjack_model demoUnits false).constraints ∧
    demoAssignment.start wuA.firstTask = 0 ∧
    (pin_constraints demoUnits).length =
      (demoUnits.filter (fun w => w.scheduled_start.isSome)).length :=
  scheduled_start_pinned demoUnits 50 false demoAssignment (by decide)
    wuA (List.mem_cons_self wuA [wuB]) 0 rfl

/-- C9 instantiated: the start of `taskA1` lies in `[0, 50)`. -/
theorem start_domain_half_open_witness :
    0 ≤ demoAssignment.start taskA1 ∧ demoAssignment.start taskA1 < 50 :=
  start_domain_half_open demoUnits 50 false demoAssignment (by decide)
    taskA1 (by decide)

end EGF
